import Mathlib

/-!
Verification of the key-combination detection core of
`selection_autocomplete_popup_configurable.py` (class `FastKeyTracker`).

The tracker state is embedded shallowly: the Python dict `key_states`
(key -> press time, insertion ordered, unique keys) becomes an association
list `List (Key × ℚ)`; the dict `combinations` (name -> frozenset of keys)
becomes `List (String × Finset Key)`; timestamps are rationals; the four
statistics counters are naturals.  Every operation of the class is a pure
function from state (plus the current wall-clock time) to state.
-/

namespace KeyTracker

/-- Opaque key identity.  `ctrl`, `shift` and `alt` are the modifier keys the
registration validation singles out; every other key is represented by a tag. -/
inductive Key where
  | ctrl
  | shift
  | alt
  | space
  | other (n : ℕ)
deriving DecidableEq, Repr

/-- The set `modifier_keys = {Key.ctrl, Key.shift, Key.alt}` from `add_combination`. -/
def modifierKeys : Finset Key := {Key.ctrl, Key.shift, Key.alt}

/-- State of a `FastKeyTracker` instance: configuration loaded in `__init__`,
the two dictionaries, the assembly-window start time, the last-activity
timestamp and the statistics counters. -/
structure TrackerState where
  combination_timeout : ℚ
  max_key_hold_time : ℚ
  key_states : List (Key × ℚ)
  combinations : List (String × Finset Key)
  combination_start_time : Option ℚ
  last_activity : ℚ
  total_key_presses : ℕ
  combinations_detected : ℕ
  combinations_timeout : ℕ
  stuck_keys_cleaned : ℕ
deriving DecidableEq

/-- The state right after `__init__`: empty dictionaries, no assembly window,
all counters zero. -/
def initState (timeout maxHold t0 : ℚ) : TrackerState :=
  { combination_timeout := timeout
    max_key_hold_time := maxHold
    key_states := []
    combinations := []
    combination_start_time := none
    last_activity := t0
    total_key_presses := 0
    combinations_detected := 0
    combinations_timeout := 0
    stuck_keys_cleaned := 0 }

/-- `d[k] = v` on a Python dict: overwrite in place when the key is present,
append otherwise. -/
def upsertKey (l : List (Key × ℚ)) (k : Key) (t : ℚ) : List (Key × ℚ) :=
  if l.any (fun p => p.1 = k) then
    l.map (fun p => if p.1 = k then (k, t) else p)
  else
    l ++ [(k, t)]

/-- `d[name] = key_set` on the combinations dict. -/
def upsertCombo (l : List (String × Finset Key)) (name : String) (ks : Finset Key) :
    List (String × Finset Key) :=
  if l.any (fun p => p.1 = name) then
    l.map (fun p => if p.1 = name then (name, ks) else p)
  else
    l ++ [(name, ks)]

/-- `frozenset(self.key_states.keys())`. -/
def heldKeys (s : TrackerState) : Finset Key :=
  (s.key_states.map Prod.fst).toFinset

/-- `add_combination(name, keys)`: reject an empty key set or a single bare
modifier; otherwise install (add or overwrite) the combination.  Returns the
updated state and the boolean result. -/
def add_combination (s : TrackerState) (name : String) (keys : List Key) :
    TrackerState × Bool :=
  let key_set := keys.toFinset
  if key_set = ∅ then
    (s, false)
  else if key_set.card = 1 ∧ key_set ⊆ modifierKeys then
    (s, false)
  else
    ({ s with combinations := upsertCombo s.combinations name key_set }, true)

/-- First registered combination whose key set equals `c` (the loop in
`check_combinations`; the dict is iterated in registration order). -/
def findMatch (l : List (String × Finset Key)) (c : Finset Key) : Option String :=
  (l.find? (fun p => p.2 = c)).map Prod.fst

/-- `check_combinations()`: no match on an empty held set; on the first exact
set equality, bump the detected counter, clear the key states and the window
start, and return the name. -/
def check_combinations (s : TrackerState) : TrackerState × Option String :=
  let current := heldKeys s
  if current = ∅ then
    (s, none)
  else
    match findMatch s.combinations current with
    | some name =>
        ({ s with
            combinations_detected := s.combinations_detected + 1
            key_states := []
            combination_start_time := none }, some name)
    | none => (s, none)

/-- The per-entry staleness test `current_time - press_time > max_key_hold_time`. -/
def isStuck (maxHold now : ℚ) (p : Key × ℚ) : Bool :=
  decide (now - p.2 > maxHold)

/-- `cleanup_stuck_keys()`: collect the stale entries; when any exist, bump the
stuck-key counter by their number, delete them, and clear the window start if
the store became empty. -/
def cleanup_stuck_keys (s : TrackerState) (now : ℚ) : TrackerState :=
  let stuck := s.key_states.filter (isStuck s.max_key_hold_time now)
  if stuck.isEmpty then s
  else
    let remaining := s.key_states.filter (fun p => !isStuck s.max_key_hold_time now p)
    { s with
        stuck_keys_cleaned := s.stuck_keys_cleaned + stuck.length
        key_states := remaining
        combination_start_time :=
          if remaining.isEmpty then none else s.combination_start_time }

/-- Truthiness of `self.combination_start_time and (now - start > timeout)` in
Python: `None` and the float `0.0` are both falsy. -/
def timeoutFired (cst : Option ℚ) (now timeout : ℚ) : Bool :=
  match cst with
  | none => false
  | some v => decide (v ≠ 0) && decide (now - v > timeout)

/-- The state-mutating part of `on_key_press(key)` before `check_combinations`:
bump the press counter, run the staleness sweep, start or restart the assembly
window, record the key and the activity time. -/
def press_core (s : TrackerState) (key : Key) (now : ℚ) : TrackerState :=
  let s1 := { s with total_key_presses := s.total_key_presses + 1 }
  let s2 := cleanup_stuck_keys s1 now
  let s3 :=
    if s2.key_states.isEmpty then
      { s2 with combination_start_time := some now }
    else if timeoutFired s2.combination_start_time now s2.combination_timeout then
      { s2 with
          combinations_timeout := s2.combinations_timeout + 1
          key_states := []
          combination_start_time := some now }
    else s2
  { s3 with key_states := upsertKey s3.key_states key now, last_activity := now }

/-- `on_key_press(key)`: the state update followed by match evaluation. -/
def on_key_press (s : TrackerState) (key : Key) (now : ℚ) :
    TrackerState × Option String :=
  check_combinations (press_core s key now)

/-- `on_key_release(key)`: delete the key if held, refresh the activity time,
and clear the window start when the store becomes empty; a release of a key
that is not held does nothing. -/
def on_key_release (s : TrackerState) (key : Key) (now : ℚ) : TrackerState :=
  if s.key_states.any (fun p => p.1 = key) then
    let remaining := s.key_states.filter (fun p => !(decide (p.1 = key)))
    { s with
        key_states := remaining
        last_activity := now
        combination_start_time :=
          if remaining.isEmpty then none else s.combination_start_time }
  else s

/-- `force_reset()`: clear everything and refresh the activity time. -/
def force_reset (s : TrackerState) (now : ℚ) : TrackerState :=
  { s with
      key_states := []
      combination_start_time := none
      last_activity := now }

/-- One tick of the `monitor` closure in `start_monitoring`: staleness sweep,
then a full force reset when keys are held and no activity was seen for more
than the hard-coded 5.0 seconds. -/
def watchdog_tick (s : TrackerState) (now : ℚ) : TrackerState :=
  let s1 := cleanup_stuck_keys s now
  if decide (now - s1.last_activity > 5) && !s1.key_states.isEmpty then
    force_reset s1 now
  else s1

/-- The assembly-window invariant of the spec: the window start time is unset
exactly when no key is held. -/
def WindowInv (s : TrackerState) : Prop :=
  s.combination_start_time = none ↔ s.key_states = []

/-- Key sets allowed to sit in the combination table: non-empty and not a
single bare modifier. -/
def validCombo (R : Finset Key) : Prop :=
  R ≠ ∅ ∧ ∀ m ∈ modifierKeys, R ≠ {m}

/-- Lookup of a name in the combinations table. -/
def lookupCombo (l : List (String × Finset Key)) (name : String) :
    Option (Finset Key) :=
  (l.find? (fun p => p.1 = name)).map Prod.snd

/-- A concrete state for the examples below: ctrl held since time 1 inside an
open assembly window, a 1-second assembly timeout, a 3-second hold limit, and
one registered combination `A = {ctrl, space}`. -/
def sampleHeld : TrackerState :=
  { combination_timeout := 1
    max_key_hold_time := 3
    key_states := [(Key.ctrl, 1)]
    combinations := [("A", {Key.ctrl, Key.space})]
    combination_start_time := some 1
    last_activity := 1
    total_key_presses := 1
    combinations_detected := 0
    combinations_timeout := 0
    stuck_keys_cleaned := 0 }

/-- Like `sampleHeld` but with a 10-second hold limit, so that at time 7 the
held key is not individually stale although the tracker has been inactive for
more than 5 seconds. -/
def sampleInactive : TrackerState :=
  { combination_timeout := 1
    max_key_hold_time := 10
    key_states := [(Key.ctrl, 1)]
    combinations := [("A", {Key.ctrl, Key.space})]
    combination_start_time := some 1
    last_activity := 1
    total_key_presses := 1
    combinations_detected := 0
    combinations_timeout := 0
    stuck_keys_cleaned := 0 }

theorem heldKeys_eq_empty {s : TrackerState} : heldKeys s = ∅ ↔ s.key_states = [] := by
  simp [heldKeys, List.toFinset_eq_empty_iff, List.map_eq_nil_iff]

theorem cleanup_of_no_stuck {s : TrackerState} {now : ℚ}
    (h : ∀ p ∈ s.key_states, isStuck s.max_key_hold_time now p = false) :
    cleanup_stuck_keys s now = s := by
  have hf : s.key_states.filter (isStuck s.max_key_hold_time now) = [] := by
    rw [List.filter_eq_nil_iff]
    intro p hp
    simp [h p hp]
  simp [cleanup_stuck_keys, hf]

theorem cleanup_of_empty {s : TrackerState} {now : ℚ} (h : s.key_states = []) :
    cleanup_stuck_keys s now = s := by
  apply cleanup_of_no_stuck
  intro p hp
  rw [h] at hp
  cases hp

/-- Rewrite form of the sweep when no entry is stale. -/
theorem cleanup_stuck_keys_of_none {s : TrackerState} {now : ℚ}
    (h : s.key_states.filter (isStuck s.max_key_hold_time now) = []) :
    cleanup_stuck_keys s now = s := by
  simp [cleanup_stuck_keys, h]

/-- Rewrite form of the sweep when some entry is stale. -/
theorem cleanup_stuck_keys_of_some {s : TrackerState} {now : ℚ}
    (h : s.key_states.filter (isStuck s.max_key_hold_time now) ≠ []) :
    cleanup_stuck_keys s now =
      { s with
          stuck_keys_cleaned := s.stuck_keys_cleaned +
            (s.key_states.filter (isStuck s.max_key_hold_time now)).length
          key_states := s.key_states.filter (fun p => !isStuck s.max_key_hold_time now p)
          combination_start_time :=
            if (s.key_states.filter
                  (fun p => !isStuck s.max_key_hold_time now p)).isEmpty = true then
              none
            else s.combination_start_time } := by
  simp only [cleanup_stuck_keys]
  rw [if_neg]
  simp [List.isEmpty_iff, h]

theorem cleanup_last_activity (s : TrackerState) (now : ℚ) :
    (cleanup_stuck_keys s now).last_activity = s.last_activity := by
  by_cases h : s.key_states.filter (isStuck s.max_key_hold_time now) = []
  · rw [cleanup_stuck_keys_of_none h]
  · rw [cleanup_stuck_keys_of_some h]

theorem cleanup_counters (s : TrackerState) (now : ℚ) :
    (cleanup_stuck_keys s now).combinations_timeout = s.combinations_timeout ∧
    (cleanup_stuck_keys s now).total_key_presses = s.total_key_presses ∧
    (cleanup_stuck_keys s now).combinations = s.combinations ∧
    (cleanup_stuck_keys s now).combination_timeout = s.combination_timeout ∧
    (cleanup_stuck_keys s now).max_key_hold_time = s.max_key_hold_time := by
  by_cases h : s.key_states.filter (isStuck s.max_key_hold_time now) = []
  · rw [cleanup_stuck_keys_of_none h]
    exact ⟨rfl, rfl, rfl, rfl, rfl⟩
  · rw [cleanup_stuck_keys_of_some h]
    exact ⟨rfl, rfl, rfl, rfl, rfl⟩

/-- If the store is non-empty and the sweep empties it, the sweep also clears
the window start. -/
theorem cleanup_emptied_cst {s : TrackerState} {now : ℚ}
    (hne : s.key_states ≠ [])
    (hres : (cleanup_stuck_keys s now).key_states = []) :
    (cleanup_stuck_keys s now).combination_start_time = none := by
  by_cases h : s.key_states.filter (isStuck s.max_key_hold_time now) = []
  · rw [cleanup_stuck_keys_of_none h] at hres
    exact absurd hres hne
  · rw [cleanup_stuck_keys_of_some h] at hres ⊢
    simp only at hres
    simp [List.isEmpty_iff, hres]

/-- The sweep preserves the window invariant. -/
theorem windowInv_cleanup {s : TrackerState} {now : ℚ} (h : WindowInv s) :
    WindowInv (cleanup_stuck_keys s now) := by
  unfold WindowInv at h ⊢
  by_cases hf : s.key_states.filter (isStuck s.max_key_hold_time now) = []
  · rw [cleanup_stuck_keys_of_none hf]
    exact h
  · have hne : s.key_states ≠ [] := by
      intro hnil
      rw [hnil] at hf
      simp at hf
    rw [cleanup_stuck_keys_of_some hf]
    by_cases hrem :
        s.key_states.filter (fun p => !isStuck s.max_key_hold_time now p) = []
    · simp [List.isEmpty_iff, hrem]
    · simp only [List.isEmpty_iff]
      rw [if_neg hrem]
      constructor
      · intro hc
        exact absurd (h.mp hc) hne
      · intro hc
        exact absurd hc hrem

theorem upsertKey_ne_nil (l : List (Key × ℚ)) (k : Key) (t : ℚ) :
    upsertKey l k t ≠ [] := by
  unfold upsertKey
  by_cases hany : l.any (fun p => decide (p.1 = k)) = true
  · simp only [hany, if_true]
    rw [List.any_eq_true] at hany
    obtain ⟨p, hp, _⟩ := hany
    intro hnil
    rw [List.map_eq_nil_iff] at hnil
    rw [hnil] at hp
    cases hp
  · simp only [hany]
    simp

/-- Evaluating a press on an empty store: the sweep is a no-op, a fresh
assembly window opens at `now`, and the store holds just the pressed key. -/
theorem press_core_of_empty {s : TrackerState} {k : Key} {now : ℚ}
    (h : s.key_states = []) :
    press_core s k now =
      { s with
          total_key_presses := s.total_key_presses + 1
          combination_start_time := some now
          key_states := [(k, now)]
          last_activity := now } := by
  obtain ⟨ct, mh, ks, cb, cst, la, tp, cd, cto, sk⟩ := s
  dsimp only at h
  subst h
  simp [press_core, cleanup_stuck_keys, upsertKey]

/-- Evaluating a press when keys are held, none stale, and the assembly window
has not expired (in the Python truthiness sense): only the store entry for the
key and the activity time change. -/
theorem press_core_of_live {s : TrackerState} {k : Key} {now : ℚ}
    (hne : s.key_states ≠ [])
    (hstuck : ∀ p ∈ s.key_states, isStuck s.max_key_hold_time now p = false)
    (hto : timeoutFired s.combination_start_time now s.combination_timeout = false) :
    press_core s k now =
      { s with
          total_key_presses := s.total_key_presses + 1
          key_states := upsertKey s.key_states k now
          last_activity := now } := by
  obtain ⟨ct, mh, ks, cb, cst, la, tp, cd, cto, sk⟩ := s
  dsimp only at hne hstuck hto ⊢
  have h1 : cleanup_stuck_keys ⟨ct, mh, ks, cb, cst, la, tp + 1, cd, cto, sk⟩ now =
      ⟨ct, mh, ks, cb, cst, la, tp + 1, cd, cto, sk⟩ :=
    cleanup_of_no_stuck hstuck
  simp only [press_core, h1]
  rw [if_neg, if_neg]
  · simpa using hto
  · simpa [List.isEmpty_iff] using hne

/-- Evaluating a press when keys are held, none stale, and the assembly window
has expired: the timeout counter bumps, the store restarts with just the new
key, and the window restarts at `now`. -/
theorem press_core_of_timeout {s : TrackerState} {k : Key} {now : ℚ}
    (hne : s.key_states ≠ [])
    (hstuck : ∀ p ∈ s.key_states, isStuck s.max_key_hold_time now p = false)
    (hto : timeoutFired s.combination_start_time now s.combination_timeout = true) :
    press_core s k now =
      { s with
          total_key_presses := s.total_key_presses + 1
          combinations_timeout := s.combinations_timeout + 1
          key_states := [(k, now)]
          combination_start_time := some now
          last_activity := now } := by
  obtain ⟨ct, mh, ks, cb, cst, la, tp, cd, cto, sk⟩ := s
  dsimp only at hne hstuck hto ⊢
  have h1 : cleanup_stuck_keys ⟨ct, mh, ks, cb, cst, la, tp + 1, cd, cto, sk⟩ now =
      ⟨ct, mh, ks, cb, cst, la, tp + 1, cd, cto, sk⟩ :=
    cleanup_of_no_stuck hstuck
  simp only [press_core, h1]
  rw [if_neg]
  · simp only [hto, if_true]
    simp [upsertKey]
  · simpa [List.isEmpty_iff] using hne

/-- `check_combinations` on a state with no exact match changes nothing. -/
theorem check_combinations_of_no_match {s : TrackerState}
    (h : findMatch s.combinations (heldKeys s) = none) :
    check_combinations s = (s, none) := by
  unfold check_combinations
  by_cases he : heldKeys s = ∅
  · simp [he]
  · simp [he, h]

/-- `check_combinations` on a non-empty held set with a first match: counter
bump, full reset, and the matched name is returned. -/
theorem check_combinations_of_match {s : TrackerState} {name : String}
    (hne : heldKeys s ≠ ∅)
    (h : findMatch s.combinations (heldKeys s) = some name) :
    check_combinations s =
      ({ s with
          combinations_detected := s.combinations_detected + 1
          key_states := []
          combination_start_time := none }, some name) := by
  unfold check_combinations
  simp [hne, h]

/-- A returned match always comes from the match branch: afterwards the store
is empty and the window start is cleared. -/
theorem check_combinations_some_reset {s : TrackerState} {name : String}
    (h : (check_combinations s).2 = some name) :
    (check_combinations s).1.key_states = [] ∧
    (check_combinations s).1.combination_start_time = none := by
  unfold check_combinations at h ⊢
  by_cases he : heldKeys s = ∅
  · simp [he] at h
  · rcases hm : findMatch s.combinations (heldKeys s) with _ | n
    · simp [he, hm] at h
    · simp [he, hm]

/-- First-match characterization of `findMatch`: it returns `name` exactly when
the table splits as a prefix with no key set equal to `c`, then an entry
`(name, c)`. -/
theorem findMatch_eq_some_iff (l : List (String × Finset Key)) (c : Finset Key)
    (name : String) :
    findMatch l c = some name ↔
      ∃ R pre post, l = pre ++ (name, R) :: post ∧ R = c ∧
        ∀ q ∈ pre, q.2 ≠ c := by
  unfold findMatch
  rw [Option.map_eq_some']
  constructor
  · rintro ⟨b, hb, hb1⟩
    rw [List.find?_eq_some] at hb
    obtain ⟨hpb, pre, post, hsplit, hpre⟩ := hb
    refine ⟨b.2, pre, post, ?_, ?_, ?_⟩
    · rw [hsplit]
      congr 1
      rw [← hb1]
    · simpa using hpb
    · intro q hq
      have := hpre q hq
      simpa using this
  · rintro ⟨R, pre, post, hsplit, hR, hpre⟩
    refine ⟨(name, R), ?_, rfl⟩
    rw [List.find?_eq_some]
    constructor
    · simpa using hR
    · refine ⟨pre, post, hsplit, ?_⟩
      intro q hq
      simpa using hpre q hq

theorem findMatch_eq_none_iff (l : List (String × Finset Key)) (c : Finset Key) :
    findMatch l c = none ↔ ∀ q ∈ l, q.2 ≠ c := by
  unfold findMatch
  rw [Option.map_eq_none']
  rw [List.find?_eq_none]
  constructor
  · intro h q hq
    simpa using h q hq
  · intro h q hq
    simpa using h q hq

theorem ne_nil_of_any {α : Type} {l : List α} {p : α → Bool}
    (h : l.any p = true) : l ≠ [] := by
  intro hnil
  rw [hnil] at h
  cases h

/-- Overwriting the entry of a key that appears once leaves exactly one entry
for that key, carrying the new timestamp. -/
theorem overwrite_filter_self {l : List (Key × ℚ)} {k : Key} {t t0 : ℚ}
    (hmem : (k, t0) ∈ l) (hnd : (l.map Prod.fst).Nodup) :
    (l.map (fun p => if p.1 = k then (k, t) else p)).filter
        (fun p => decide (p.1 = k)) = [(k, t)] := by
  induction l with
  | nil => cases hmem
  | cons a rest ih =>
    rw [List.map_cons, List.nodup_cons] at hnd
    by_cases ha : a.1 = k
    · have hrest : ∀ q ∈ rest, q.1 ≠ k := by
        intro q hq hqk
        exact hnd.1 (by rw [← ha] at hqk; rw [← hqk]; exact List.mem_map_of_mem Prod.fst hq)
      have hmap : (rest.map (fun p => if p.1 = k then (k, t) else p)).filter
          (fun p => decide (p.1 = k)) = [] := by
        rw [List.filter_eq_nil_iff]
        intro q hq
        rw [List.mem_map] at hq
        obtain ⟨p, hp, hfp⟩ := hq
        rw [if_neg (hrest p hp)] at hfp
        simp [← hfp, hrest p hp]
      simp only [List.map_cons, if_pos ha, List.filter_cons]
      simp [hmap]
    · have hmem' : (k, t0) ∈ rest := by
        rw [List.mem_cons] at hmem
        rcases hmem with h | h
        · exact absurd (congrArg Prod.fst h.symm) ha
        · exact h
      simp only [List.map_cons, if_neg ha, List.filter_cons]
      have : (decide (a.1 = k)) = false := by simp [ha]
      simp only [this, cond_false]
      exact ih hmem' hnd.2

theorem upsertKey_filter_self {l : List (Key × ℚ)} {k : Key} {t t0 : ℚ}
    (hmem : (k, t0) ∈ l) (hnd : (l.map Prod.fst).Nodup) :
    (upsertKey l k t).filter (fun p => decide (p.1 = k)) = [(k, t)] := by
  have hany : l.any (fun p => decide (p.1 = k)) = true := by
    rw [List.any_eq_true]
    exact ⟨(k, t0), hmem, by simp⟩
  unfold upsertKey
  rw [if_pos hany]
  exact overwrite_filter_self hmem hnd

/-- Every entry of the table after an upsert is an old entry or the new one. -/
theorem mem_upsertCombo {l : List (String × Finset Key)} {n : String}
    {ks : Finset Key} {q : String × Finset Key}
    (hq : q ∈ upsertCombo l n ks) : q ∈ l ∨ q = (n, ks) := by
  unfold upsertCombo at hq
  by_cases hany : l.any (fun p => decide (p.1 = n)) = true
  · rw [if_pos hany, List.mem_map] at hq
    obtain ⟨p, hp, hfp⟩ := hq
    by_cases hpn : p.1 = n
    · right
      rw [← hfp, if_pos hpn]
    · left
      rw [← hfp, if_neg hpn]
      exact hp
  · rw [if_neg hany, List.mem_append] at hq
    rcases hq with h | h
    · left
      exact h
    · right
      simpa using h

theorem find?_map_overwrite_self {l : List (String × Finset Key)} {n : String}
    {ks : Finset Key}
    (hany : l.any (fun p => decide (p.1 = n)) = true) :
    (l.map (fun p => if p.1 = n then (n, ks) else p)).find?
        (fun p => decide (p.1 = n)) = some (n, ks) := by
  induction l with
  | nil => cases hany
  | cons a rest ih =>
    by_cases ha : a.1 = n
    · simp only [List.map_cons, if_pos ha]
      rw [List.find?_cons_of_pos _ (by simp [ha])]
    · simp only [List.map_cons, if_neg ha]
      rw [List.find?_cons_of_neg _ (by simp [ha])]
      apply ih
      rw [List.any_cons] at hany
      simpa [ha] using hany

theorem lookupCombo_upsert_self (l : List (String × Finset Key)) (n : String)
    (ks : Finset Key) :
    lookupCombo (upsertCombo l n ks) n = some ks := by
  unfold lookupCombo upsertCombo
  by_cases hany : l.any (fun p => decide (p.1 = n)) = true
  · rw [if_pos hany, find?_map_overwrite_self hany]
    rfl
  · rw [if_neg hany, List.find?_append]
    have hl : l.find? (fun p => decide (p.1 = n)) = none := by
      rw [List.find?_eq_none]
      intro q hq hqn
      exact hany (by rw [List.any_eq_true]; exact ⟨q, hq, hqn⟩)
    rw [hl]
    simp

theorem find?_map_overwrite_other {l : List (String × Finset Key)} {n n' : String}
    {ks : Finset Key} (hne : n' ≠ n) :
    (l.map (fun p => if p.1 = n then (n, ks) else p)).find?
        (fun p => decide (p.1 = n')) = l.find? (fun p => decide (p.1 = n')) := by
  induction l with
  | nil => rfl
  | cons a rest ih =>
    by_cases ha : a.1 = n
    · simp only [List.map_cons, if_pos ha]
      rw [List.find?_cons_of_neg _ (by simp [Ne.symm hne]),
        List.find?_cons_of_neg _ (by simp [ha, Ne.symm hne])]
      exact ih
    · simp only [List.map_cons, if_neg ha]
      by_cases hpa : a.1 = n'
      · rw [List.find?_cons_of_pos _ (by simp [hpa]),
          List.find?_cons_of_pos _ (by simp [hpa])]
      · rw [List.find?_cons_of_neg _ (by simp [hpa]),
          List.find?_cons_of_neg _ (by simp [hpa])]
        exact ih

theorem lookupCombo_upsert_other {l : List (String × Finset Key)} {n n' : String}
    {ks : Finset Key} (hne : n' ≠ n) :
    lookupCombo (upsertCombo l n ks) n' = lookupCombo l n' := by
  unfold lookupCombo upsertCombo
  by_cases hany : l.any (fun p => decide (p.1 = n)) = true
  · rw [if_pos hany, find?_map_overwrite_other hne]
  · rw [if_neg hany, List.find?_append]
    have h2 : List.find? (fun p => decide (p.1 = n')) [(n, ks)] = none := by
      simp [List.find?, Ne.symm hne]
    rw [h2, Option.or_none]

/-- After the state-mutating part of a press the store is never empty and the
window start is always set (given the invariant beforehand). -/
theorem press_core_nonempty {s : TrackerState} {k : Key} {now : ℚ}
    (h : WindowInv s) :
    (press_core s k now).key_states ≠ [] ∧
    (press_core s k now).combination_start_time ≠ none := by
  have h2 : WindowInv (cleanup_stuck_keys
      { s with total_key_presses := s.total_key_presses + 1 } now) :=
    windowInv_cleanup h
  simp only [press_core]
  set s2 := cleanup_stuck_keys
    { s with total_key_presses := s.total_key_presses + 1 } now with hs2
  constructor
  · by_cases hks : s2.key_states.isEmpty = true
    · rw [if_pos hks]
      exact upsertKey_ne_nil _ _ _
    · rw [if_neg hks]
      by_cases hto : timeoutFired s2.combination_start_time now s2.combination_timeout = true
      · rw [if_pos hto]
        exact upsertKey_ne_nil _ _ _
      · rw [if_neg hto]
        exact upsertKey_ne_nil _ _ _
  · by_cases hks : s2.key_states.isEmpty = true
    · rw [if_pos hks]
      simp
    · rw [if_neg hks]
      by_cases hto : timeoutFired s2.combination_start_time now s2.combination_timeout = true
      · rw [if_pos hto]
        simp
      · rw [if_neg hto]
        intro hc
        rw [List.isEmpty_iff] at hks
        exact hks (h2.mp hc)

theorem windowInv_check {s : TrackerState} (h : WindowInv s) :
    WindowInv (check_combinations s).1 := by
  unfold check_combinations
  by_cases he : heldKeys s = ∅
  · simpa [he] using h
  · rcases hm : findMatch s.combinations (heldKeys s) with _ | n
    · simpa [he, hm] using h
    · simp only [he, hm, if_neg]
      simp [WindowInv]

theorem windowInv_press {s : TrackerState} {k : Key} {now : ℚ}
    (h : WindowInv s) :
    WindowInv (on_key_press s k now).1 := by
  unfold on_key_press
  apply windowInv_check
  have := @press_core_nonempty s k now h
  unfold WindowInv
  constructor
  · intro hc
    exact absurd hc this.2
  · intro hc
    exact absurd hc this.1

theorem windowInv_release {s : TrackerState} {k : Key} {now : ℚ}
    (h : WindowInv s) :
    WindowInv (on_key_release s k now) := by
  unfold on_key_release
  by_cases hany : s.key_states.any (fun p => decide (p.1 = k)) = true
  · rw [if_pos hany]
    by_cases hrem : s.key_states.filter (fun p => !(decide (p.1 = k))) = []
    · simp [WindowInv, hrem]
    · unfold WindowInv
      simp only [List.isEmpty_iff]
      rw [if_neg hrem]
      constructor
      · intro hc
        exact absurd (h.mp hc) (ne_nil_of_any hany)
      · intro hc
        exact absurd hc hrem
  · rw [if_neg hany]
    exact h

theorem windowInv_force (s : TrackerState) (now : ℚ) :
    WindowInv (force_reset s now) := by
  simp [WindowInv, force_reset]

theorem windowInv_watchdog {s : TrackerState} {now : ℚ} (h : WindowInv s) :
    WindowInv (watchdog_tick s now) := by
  unfold watchdog_tick
  by_cases hc : (decide (now - (cleanup_stuck_keys s now).last_activity > 5) &&
      !(cleanup_stuck_keys s now).key_states.isEmpty) = true
  · rw [if_pos hc]
    exact windowInv_force _ _
  · rw [if_neg hc]
    exact windowInv_cleanup h

theorem check_combinations_snd (s : TrackerState) :
    (check_combinations s).2 =
      if heldKeys s = ∅ then none else findMatch s.combinations (heldKeys s) := by
  unfold check_combinations
  by_cases he : heldKeys s = ∅
  · simp [he]
  · rcases hm : findMatch s.combinations (heldKeys s) with _ | n <;> simp [he, hm]

/-- Claim C1: match evaluation returns a name exactly when the held-key set is
non-empty and equals the required-key set of some registered combination, and
the name returned is the first exact match in registration order; strict
subsets, strict supersets and the empty set never match. -/
theorem check_combinations_exact_match (s : TrackerState) (name : String) :
    (check_combinations s).2 = some name ↔
      heldKeys s ≠ ∅ ∧
      ∃ R pre post,
        s.combinations = pre ++ (name, R) :: post ∧
        heldKeys s = R ∧
        ∀ q ∈ pre, q.2 ≠ heldKeys s := by
  rw [check_combinations_snd]
  by_cases he : heldKeys s = ∅
  · simp [he]
  · rw [if_neg he, findMatch_eq_some_iff]
    constructor
    · rintro ⟨R, pre, post, hsplit, hR, hpre⟩
      exact ⟨he, R, pre, post, hsplit, hR.symm, hpre⟩
    · rintro ⟨_, R, pre, post, hsplit, hR, hpre⟩
      exact ⟨R, pre, post, hsplit, hR.symm, hpre⟩

/-- Claim C3: a press that returns a match leaves an empty store and an unset
window start, and the next press then opens a fresh assembly window at its own
timestamp, holding exactly the new key. -/
theorem match_resets_state (s : TrackerState) (k : Key) (now : ℚ) (name : String)
    (h : (on_key_press s k now).2 = some name) :
    (on_key_press s k now).1.key_states = [] ∧
    (on_key_press s k now).1.combination_start_time = none ∧
    ∀ k2 t2,
      (press_core (on_key_press s k now).1 k2 t2).combination_start_time = some t2 ∧
      (press_core (on_key_press s k now).1 k2 t2).key_states = [(k2, t2)] := by
  unfold on_key_press at h ⊢
  have hr := check_combinations_some_reset (s := press_core s k now) h
  refine ⟨hr.1, hr.2, ?_⟩
  intro k2 t2
  rw [press_core_of_empty hr.1]
  exact ⟨rfl, rfl⟩

theorem sampleHeld_press_space :
    (on_key_press sampleHeld Key.space 2).2 = some "A" := by
  have hstuck : ∀ p ∈ sampleHeld.key_states,
      isStuck sampleHeld.max_key_hold_time 2 p = false := by
    intro p hp
    rw [show sampleHeld.key_states = [(Key.ctrl, 1)] from rfl,
      List.mem_singleton] at hp
    subst hp
    simp only [isStuck, decide_eq_false_iff_not]
    show ¬((2:ℚ) - 1 > 3)
    norm_num
  have hto : timeoutFired sampleHeld.combination_start_time 2
      sampleHeld.combination_timeout = false := by
    show (decide ((1:ℚ) ≠ 0) && decide ((2:ℚ) - 1 > 1)) = false
    have : ¬((2:ℚ) - 1 > 1) := by norm_num
    simp [this]
  have hcore := @press_core_of_live sampleHeld Key.space 2
    (by decide) hstuck hto
  unfold on_key_press
  rw [hcore, @check_combinations_of_match _ "A" (by decide) (by decide)]

/-- Claim C3 witness: on `sampleHeld`, pressing space at time 2 matches `A`;
afterwards the store is empty, the window start is unset, and a press of alt
at time 9 opens a fresh window at 9 holding only alt. -/
theorem match_resets_state_witness :
    (on_key_press sampleHeld Key.space 2).1.key_states = [] ∧
    (on_key_press sampleHeld Key.space 2).1.combination_start_time = none ∧
    (press_core (on_key_press sampleHeld Key.space 2).1 Key.alt 9).combination_start_time = some 9 ∧
    (press_core (on_key_press sampleHeld Key.space 2).1 Key.alt 9).key_states = [(Key.alt, 9)] := by
  have h := match_resets_state sampleHeld Key.space 2 "A" sampleHeld_press_space
  exact ⟨h.1, h.2.1, (h.2.2 Key.alt 9).1, (h.2.2 Key.alt 9).2⟩

/-- Claim C4: the staleness sweep removes every key held longer than
`max_key_hold_time` from the held set, bumps the stuck counter by exactly the
number of evicted entries, and clears the window start when the eviction
empties the store. -/
theorem stuck_key_eviction (s : TrackerState) (now : ℚ)
    (hnd : (s.key_states.map Prod.fst).Nodup) :
    (∀ k t, (k, t) ∈ s.key_states → now - t > s.max_key_hold_time →
        k ∉ heldKeys (cleanup_stuck_keys s now)) ∧
    (cleanup_stuck_keys s now).stuck_keys_cleaned =
      s.stuck_keys_cleaned +
        (s.key_states.filter (isStuck s.max_key_hold_time now)).length ∧
    (s.key_states ≠ [] → (cleanup_stuck_keys s now).key_states = [] →
        (cleanup_stuck_keys s now).combination_start_time = none) := by
  refine ⟨?_, ?_, fun hne hres => cleanup_emptied_cst hne hres⟩
  · intro k t hmem hstk
    have hf : s.key_states.filter (isStuck s.max_key_hold_time now) ≠ [] := by
      intro hnil
      rw [List.filter_eq_nil_iff] at hnil
      exact hnil (k, t) hmem (by simpa [isStuck] using hstk)
    rw [cleanup_stuck_keys_of_some hf]
    unfold heldKeys
    rw [List.mem_toFinset, List.mem_map]
    rintro ⟨p, hp, hpk⟩
    rw [List.mem_filter] at hp
    have hpkt : p = (k, t) :=
      List.inj_on_of_nodup_map hnd hp.1 hmem (by rw [hpk])
    rw [hpkt] at hp
    have hst : isStuck s.max_key_hold_time now (k, t) = true := by
      simpa [isStuck] using hstk
    simp [hst] at hp
  · by_cases hf : s.key_states.filter (isStuck s.max_key_hold_time now) = []
    · rw [cleanup_stuck_keys_of_none hf, hf]
      simp
    · rw [cleanup_stuck_keys_of_some hf]

/-- Claim C4 witness: ctrl pressed at 1 and swept at 5 with a 3-second hold
limit is gone from the held set. -/
theorem stuck_key_eviction_witness :
    Key.ctrl ∉ heldKeys (cleanup_stuck_keys sampleHeld 5) :=
  (stuck_key_eviction sampleHeld 5 (by decide)).1 Key.ctrl 1 (by decide)
    (by show (5:ℚ) - 1 > 3; norm_num)

/-- Claim C7: the predicate "window start is `None` iff the store is empty"
holds initially and is preserved by press handling, release handling, the
staleness sweep, the watchdog tick, match evaluation and force reset. -/
theorem window_invariant_preserved (s : TrackerState) (k kr : Key)
    (now a b t0 : ℚ) (h : WindowInv s) :
    WindowInv (initState a b t0) ∧
    WindowInv (on_key_press s k now).1 ∧
    WindowInv (on_key_release s kr now) ∧
    WindowInv (cleanup_stuck_keys s now) ∧
    WindowInv (watchdog_tick s now) ∧
    WindowInv (check_combinations s).1 ∧
    WindowInv (force_reset s now) :=
  ⟨⟨fun _ => rfl, fun _ => rfl⟩, windowInv_press h, windowInv_release h,
    windowInv_cleanup h, windowInv_watchdog h, windowInv_check h,
    windowInv_force s now⟩

/-- Claim C7 witness: the invariant instantiated on a concrete state with one
held key. -/
theorem window_invariant_preserved_witness :
    WindowInv (initState 1 2 3) ∧
    WindowInv (on_key_press sampleHeld Key.shift 2).1 ∧
    WindowInv (on_key_release sampleHeld Key.alt 2) ∧
    WindowInv (cleanup_stuck_keys sampleHeld 2) ∧
    WindowInv (watchdog_tick sampleHeld 2) ∧
    WindowInv (check_combinations sampleHeld).1 ∧
    WindowInv (force_reset sampleHeld 2) :=
  window_invariant_preserved sampleHeld Key.shift Key.alt 2 1 2 3
    (by unfold WindowInv sampleHeld; decide)

/-- Claim C10: releasing a key that is not held changes nothing at all: the
state (store, window start, counters, activity time) is returned untouched. -/
theorem release_not_held_noop (s : TrackerState) (k : Key) (now : ℚ)
    (h : k ∉ heldKeys s) :
    on_key_release s k now = s := by
  unfold on_key_release
  rw [if_neg]
  intro hany
  rw [List.any_eq_true] at hany
  obtain ⟨p, hp, hpk⟩ := hany
  apply h
  unfold heldKeys
  rw [List.mem_toFinset]
  simp only [decide_eq_true_eq] at hpk
  rw [← hpk]
  exact List.mem_map_of_mem Prod.fst hp

/-- Claim C10 witness: releasing alt while only ctrl is held is a no-op. -/
theorem release_not_held_noop_witness :
    on_key_release sampleHeld Key.alt 2 = sampleHeld :=
  release_not_held_noop sampleHeld Key.alt 2 (by decide)

/-- Evaluating a press when every held key is stale: the sweep empties the
store first (bumping the stuck counter, not the timeout counter), then a fresh
window opens at `now`. -/
theorem press_core_of_all_stuck {s : TrackerState} {k : Key} {now : ℚ}
    (hne : s.key_states ≠ [])
    (hstuck : ∀ p ∈ s.key_states, isStuck s.max_key_hold_time now p = true) :
    press_core s k now =
      { s with
          total_key_presses := s.total_key_presses + 1
          stuck_keys_cleaned := s.stuck_keys_cleaned + s.key_states.length
          key_states := [(k, now)]
          combination_start_time := some now
          last_activity := now } := by
  obtain ⟨ct, mh, ks, cb, cst, la, tp, cd, cto, sk⟩ := s
  dsimp only at hne hstuck ⊢
  have hfe : ks.filter (isStuck mh now) = ks := List.filter_eq_self.mpr hstuck
  have hfne : ks.filter (isStuck mh now) ≠ [] := by
    rw [hfe]
    exact hne
  have hrem : ks.filter (fun p => !isStuck mh now p) = [] := by
    rw [List.filter_eq_nil_iff]
    intro p hp
    simp [hstuck p hp]
  have hclean : cleanup_stuck_keys ⟨ct, mh, ks, cb, cst, la, tp + 1, cd, cto, sk⟩ now =
      ⟨ct, mh, [], cb, none, la, tp + 1, cd, cto, sk + ks.length⟩ := by
    rw [cleanup_stuck_keys_of_some hfne]
    simp [hfe, hrem]
  simp only [press_core, hclean]
  simp [upsertKey]

theorem on_key_press_of_no_match {s : TrackerState} {k : Key} {now : ℚ}
    (h : findMatch (press_core s k now).combinations
        (heldKeys (press_core s k now)) = none) :
    on_key_press s k now = (press_core s k now, none) := by
  unfold on_key_press
  exact check_combinations_of_no_match h

/-- Claim C2 (amended): with no intervening release, a second press arriving
more than `combination_timeout` after the window opened — but no later than
`max_key_hold_time` after the first press, so that the first key is not yet
stale — bumps the timeout counter exactly once, clears the old keys, and
restarts the window at the second press, which alone is then held.  (When the
gap also exceeds `max_key_hold_time` the store is still cleared and restarted,
but by the staleness sweep: the stuck counter is bumped instead of the timeout
counter — see the counterexample.) -/
theorem press_timeout_restart (s : TrackerState) (k1 k2 : Key) (t0 e t2 : ℚ)
    (hks : s.key_states = [])
    (ht0 : 0 < t0)
    (he : 0 < e)
    (ht2 : t2 = t0 + s.combination_timeout + e)
    (hle : s.combination_timeout + e ≤ s.max_key_hold_time)
    (hm1 : ∀ q ∈ s.combinations, q.2 ≠ ({k1} : Finset Key))
    (hm2 : ∀ q ∈ s.combinations, q.2 ≠ ({k2} : Finset Key)) :
    (on_key_press s k1 t0).1.combinations_timeout = s.combinations_timeout ∧
    (on_key_press (on_key_press s k1 t0).1 k2 t2).1.combinations_timeout =
      s.combinations_timeout + 1 ∧
    (on_key_press (on_key_press s k1 t0).1 k2 t2).1.key_states = [(k2, t2)] ∧
    (on_key_press (on_key_press s k1 t0).1 k2 t2).1.combination_start_time =
      some t2 ∧
    (on_key_press (on_key_press s k1 t0).1 k2 t2).1.stuck_keys_cleaned =
      s.stuck_keys_cleaned := by
  have hc1 := @press_core_of_empty s k1 t0 hks
  have hp1 : on_key_press s k1 t0 = (press_core s k1 t0, none) := by
    apply on_key_press_of_no_match
    rw [findMatch_eq_none_iff]
    intro q hq
    rw [hc1] at hq ⊢
    dsimp only at hq ⊢
    have : heldKeys
        { s with
            total_key_presses := s.total_key_presses + 1
            combination_start_time := some t0
            key_states := [(k1, t0)]
            last_activity := t0 } = {k1} := by
      simp [heldKeys]
    rw [this]
    exact hm1 q hq
  have hfst1 : (on_key_press s k1 t0).1 = press_core s k1 t0 := by
    rw [hp1]
  have hstuck : ∀ p ∈ (press_core s k1 t0).key_states,
      isStuck (press_core s k1 t0).max_key_hold_time t2 p = false := by
    intro p hp
    rw [hc1] at hp ⊢
    dsimp only at hp ⊢
    rw [List.mem_singleton] at hp
    subst hp
    simp only [isStuck, decide_eq_false_iff_not]
    rw [ht2]
    intro hgt
    have h1 : t0 + s.combination_timeout + e - t0 = s.combination_timeout + e := by
      ring
    rw [h1] at hgt
    linarith
  have hto : timeoutFired (press_core s k1 t0).combination_start_time t2
      (press_core s k1 t0).combination_timeout = true := by
    rw [hc1]
    dsimp only
    simp only [timeoutFired, Bool.and_eq_true, decide_eq_true_eq]
    refine ⟨ne_of_gt ht0, ?_⟩
    rw [ht2]
    have h1 : t0 + s.combination_timeout + e - t0 = s.combination_timeout + e := by
      ring
    rw [h1]
    linarith
  have hne1 : (press_core s k1 t0).key_states ≠ [] := by
    rw [hc1]
    dsimp only
    simp
  have hc2 := @press_core_of_timeout (press_core s k1 t0) k2 t2 hne1 hstuck hto
  have hp2 : on_key_press (press_core s k1 t0) k2 t2 =
      (press_core (press_core s k1 t0) k2 t2, none) := by
    apply on_key_press_of_no_match
    rw [findMatch_eq_none_iff]
    intro q hq
    rw [hc2] at hq ⊢
    dsimp only at hq ⊢
    rw [hc1] at hq
    dsimp only at hq
    have : heldKeys
        { press_core s k1 t0 with
            total_key_presses := (press_core s k1 t0).total_key_presses + 1
            combinations_timeout := (press_core s k1 t0).combinations_timeout + 1
            key_states := [(k2, t2)]
            combination_start_time := some t2
            last_activity := t2 } = {k2} := by
      simp [heldKeys]
    rw [this]
    exact hm2 q hq
  have hfst2 : (on_key_press (press_core s k1 t0) k2 t2).1 =
      press_core (press_core s k1 t0) k2 t2 := by
    rw [hp2]
  rw [hfst1, hfst2, hc2, hc1]
  dsimp only
  exact ⟨rfl, rfl, rfl, rfl, rfl⟩

/-- Claim C2 witness for the amended statement: timeout 1, hold limit 3,
presses at 1 and 3 (gap 2, within the hold limit): the timeout counter goes
from 0 to 1 and only the second key remains held. -/
theorem press_timeout_restart_witness :
    (on_key_press (initState 1 3 0) Key.ctrl 1).1.combinations_timeout = 0 ∧
    (on_key_press (on_key_press (initState 1 3 0) Key.ctrl 1).1 Key.space 3).1.combinations_timeout = 1 ∧
    (on_key_press (on_key_press (initState 1 3 0) Key.ctrl 1).1 Key.space 3).1.key_states = [(Key.space, 3)] ∧
    (on_key_press (on_key_press (initState 1 3 0) Key.ctrl 1).1 Key.space 3).1.combination_start_time = some 3 ∧
    (on_key_press (on_key_press (initState 1 3 0) Key.ctrl 1).1 Key.space 3).1.stuck_keys_cleaned = 0 :=
  press_timeout_restart (initState 1 3 0) Key.ctrl Key.space 1 1 3
    rfl (by norm_num) (by norm_num)
    (by show (3:ℚ) = 1 + 1 + 1; norm_num)
    (by show (1:ℚ) + 1 ≤ 3; norm_num)
    (fun q hq => absurd hq (List.not_mem_nil q))
    (fun q hq => absurd hq (List.not_mem_nil q))

/-- Claim C2 counterexample: with the default configuration (timeout 0.8, hold
limit 2.0) and ε = 1.3, the press at t0 + 0.8 + 1.3 = 3.1 does NOT bump the
timeout counter (it stays 0): the first key is evicted as stuck instead (stuck
counter 1), contradicting the claim for arbitrary ε greater than 0. -/
theorem press_timeout_large_gap_counterexample :
    (on_key_press (initState (4/5) 2 0) Key.ctrl 1).1.combinations_timeout = 0 ∧
    (on_key_press (on_key_press (initState (4/5) 2 0) Key.ctrl 1).1 Key.space (31/10)).1.combinations_timeout = 0 ∧
    (on_key_press (on_key_press (initState (4/5) 2 0) Key.ctrl 1).1 Key.space (31/10)).1.stuck_keys_cleaned = 1 ∧
    (on_key_press (on_key_press (initState (4/5) 2 0) Key.ctrl 1).1 Key.space (31/10)).1.key_states = [(Key.space, 31/10)] := by
  have hc1 := @press_core_of_empty (initState (4/5) 2 0) Key.ctrl 1 rfl
  have hp1 : on_key_press (initState (4/5) 2 0) Key.ctrl 1 =
      (press_core (initState (4/5) 2 0) Key.ctrl 1, none) := by
    apply on_key_press_of_no_match
    rw [hc1]
    rfl
  have hfst1 : (on_key_press (initState (4/5) 2 0) Key.ctrl 1).1 =
      press_core (initState (4/5) 2 0) Key.ctrl 1 := by
    rw [hp1]
  have hstuck : ∀ p ∈ (press_core (initState (4/5) 2 0) Key.ctrl 1).key_states,
      isStuck (press_core (initState (4/5) 2 0) Key.ctrl 1).max_key_hold_time
        (31/10) p = true := by
    intro p hp
    rw [hc1] at hp ⊢
    dsimp only at hp ⊢
    rw [List.mem_singleton] at hp
    subst hp
    simp only [isStuck, decide_eq_true_eq]
    show (31:ℚ)/10 - 1 > 2
    norm_num
  have hne1 : (press_core (initState (4/5) 2 0) Key.ctrl 1).key_states ≠ [] := by
    rw [hc1]
    dsimp only
    simp
  have hc2 := @press_core_of_all_stuck
    (press_core (initState (4/5) 2 0) Key.ctrl 1) Key.space (31/10) hne1 hstuck
  have hp2 : on_key_press (press_core (initState (4/5) 2 0) Key.ctrl 1)
      Key.space (31/10) =
      (press_core (press_core (initState (4/5) 2 0) Key.ctrl 1) Key.space (31/10), none) := by
    apply on_key_press_of_no_match
    rw [hc2, hc1]
    rfl
  have hfst2 : (on_key_press (press_core (initState (4/5) 2 0) Key.ctrl 1)
      Key.space (31/10)).1 =
      press_core (press_core (initState (4/5) 2 0) Key.ctrl 1) Key.space (31/10) := by
    rw [hp2]
  rw [hfst1, hfst2, hc2, hc1]
  exact ⟨rfl, rfl, rfl, rfl⟩

theorem add_combination_of_empty {s : TrackerState} {name : String}
    {keys : List Key} (h : keys.toFinset = ∅) :
    add_combination s name keys = (s, false) := by
  simp [add_combination, h]

theorem add_combination_of_single_mod {s : TrackerState} {name : String}
    {keys : List Key} (h0 : keys.toFinset ≠ ∅)
    (h1 : keys.toFinset.card = 1 ∧ keys.toFinset ⊆ modifierKeys) :
    add_combination s name keys = (s, false) := by
  simp only [add_combination]
  rw [if_neg h0, if_pos h1]

theorem add_combination_of_ok {s : TrackerState} {name : String}
    {keys : List Key} (h0 : keys.toFinset ≠ ∅)
    (h1 : ¬(keys.toFinset.card = 1 ∧ keys.toFinset ⊆ modifierKeys)) :
    add_combination s name keys =
      ({ s with combinations := upsertCombo s.combinations name keys.toFinset },
        true) := by
  simp only [add_combination]
  rw [if_neg h0, if_neg h1]

/-- Claim C5: registration fails (leaving the table untouched) exactly on an
empty key set or a single bare modifier; otherwise it succeeds and installs or
overwrites the entry for that name, leaving all other names unchanged. -/
theorem add_combination_validation (s : TrackerState) (name : String)
    (keys : List Key) :
    ((add_combination s name keys).2 = false ↔
      keys.toFinset = ∅ ∨ ∃ m ∈ modifierKeys, keys.toFinset = {m}) ∧
    ((add_combination s name keys).2 = false → (add_combination s name keys).1 = s) ∧
    ((add_combination s name keys).2 = true →
      lookupCombo (add_combination s name keys).1.combinations name =
        some keys.toFinset ∧
      ∀ n, n ≠ name →
        lookupCombo (add_combination s name keys).1.combinations n =
          lookupCombo s.combinations n) := by
  by_cases h0 : keys.toFinset = ∅
  · rw [add_combination_of_empty h0]
    refine ⟨?_, fun _ => rfl, fun hc => by simp at hc⟩
    simp [h0]
  · by_cases h1 : keys.toFinset.card = 1 ∧ keys.toFinset ⊆ modifierKeys
    · rw [add_combination_of_single_mod h0 h1]
      refine ⟨?_, fun _ => rfl, fun hc => by simp at hc⟩
      constructor
      · intro _
        right
        obtain ⟨a, ha⟩ := Finset.card_eq_one.mp h1.1
        refine ⟨a, ?_, ha⟩
        apply h1.2
        rw [ha]
        exact Finset.mem_singleton_self a
      · intro _
        rfl
    · rw [add_combination_of_ok h0 h1]
      refine ⟨?_, ?_, ?_⟩
      · constructor
        · intro hc
          simp at hc
        · rintro (hc | ⟨m, hm, hc⟩)
          · exact absurd hc h0
          · refine absurd ⟨?_, ?_⟩ h1
            · rw [hc]
              simp
            · rw [hc, Finset.singleton_subset_iff]
              exact hm
      · intro hc
        simp at hc
      · intro _
        exact ⟨lookupCombo_upsert_self s.combinations name keys.toFinset,
          fun n hn => lookupCombo_upsert_other hn⟩

/-- Claim C5 witness: registering a bare ctrl is rejected and leaves the state
unchanged. -/
theorem add_combination_validation_witness :
    (add_combination (initState 1 3 0) "y" [Key.ctrl]).1 = initState 1 3 0 :=
  (add_combination_validation (initState 1 3 0) "y" [Key.ctrl]).2.1 (by decide)

/-- Claim C6: when at least one key is held and no press or release has been
seen for more than 5 seconds, the next watchdog tick leaves the store empty
and the window start unset (whether or not any key individually exceeded the
hold limit). -/
theorem watchdog_inactivity_reset (s : TrackerState) (now : ℚ)
    (hks : s.key_states ≠ [])
    (hin : now - s.last_activity > 5) :
    (watchdog_tick s now).key_states = [] ∧
    (watchdog_tick s now).combination_start_time = none := by
  unfold watchdog_tick
  by_cases hres : (cleanup_stuck_keys s now).key_states = []
  · rw [if_neg]
    · exact ⟨hres, cleanup_emptied_cst hks hres⟩
    · simp [hres]
  · rw [if_pos]
    · exact ⟨rfl, rfl⟩
    · rw [cleanup_last_activity]
      simp only [Bool.and_eq_true, decide_eq_true_eq, Bool.not_eq_true',
        List.isEmpty_eq_false]
      exact ⟨hin, hres⟩

/-- Claim C6 witness: ctrl held since 1 with a 10-second hold limit (so not
individually stale) and no activity since 1; the tick at 7 clears
everything. -/
theorem watchdog_inactivity_reset_witness :
    (watchdog_tick sampleInactive 7).key_states = [] ∧
    (watchdog_tick sampleInactive 7).combination_start_time = none :=
  watchdog_inactivity_reset sampleInactive 7 (by decide)
    (by show (7:ℚ) - 1 > 5; norm_num)

/-- Claim C8: a second press of an already-held key (within the assembly
timeout and hold limit) is handled without error: the store keeps exactly one
entry for that key, now carrying the new timestamp; neither the timeout nor
the stuck counter moves; and match evaluation proceeds as usual on the
updated store. -/
theorem repeat_press_overwrites (s : TrackerState) (k : Key) (t0 t1 : ℚ)
    (hmem : (k, t0) ∈ s.key_states)
    (hnd : (s.key_states.map Prod.fst).Nodup)
    (hstuck : ∀ p ∈ s.key_states, ¬(t1 - p.2 > s.max_key_hold_time))
    (hwin : ∀ v, s.combination_start_time = some v →
      ¬(t1 - v > s.combination_timeout)) :
    (press_core s k t1).key_states = upsertKey s.key_states k t1 ∧
    (press_core s k t1).key_states.filter (fun p => decide (p.1 = k)) = [(k, t1)] ∧
    (k, t1) ∈ (press_core s k t1).key_states ∧
    (press_core s k t1).combinations_timeout = s.combinations_timeout ∧
    (press_core s k t1).stuck_keys_cleaned = s.stuck_keys_cleaned ∧
    on_key_press s k t1 = check_combinations (press_core s k t1) := by
  have hne : s.key_states ≠ [] := by
    intro h
    rw [h] at hmem
    cases hmem
  have hstuck' : ∀ p ∈ s.key_states, isStuck s.max_key_hold_time t1 p = false := by
    intro p hp
    simp only [isStuck, decide_eq_false_iff_not]
    exact hstuck p hp
  have hto : timeoutFired s.combination_start_time t1 s.combination_timeout = false := by
    rcases hcst : s.combination_start_time with _ | v
    · rfl
    · have hd : decide (t1 - v > s.combination_timeout) = false := by
        simp only [decide_eq_false_iff_not]
        exact hwin v hcst
      simp [timeoutFired, hd]
  have hcore := press_core_of_live (k := k) hne hstuck' hto
  refine ⟨by rw [hcore], ?_, ?_, by rw [hcore], by rw [hcore], rfl⟩
  · rw [hcore]
    exact upsertKey_filter_self hmem hnd
  · rw [hcore]
    have hf := upsertKey_filter_self (t := t1) hmem hnd
    have hmem2 : (k, t1) ∈ (upsertKey s.key_states k t1).filter
        (fun p => decide (p.1 = k)) := by
      rw [hf]
      exact List.mem_singleton.mpr rfl
    exact List.mem_of_mem_filter hmem2

/-- Claim C8 witness: pressing ctrl again at time 2 while it has been held
since 1 leaves one ctrl entry stamped 2 and moves no failure counter. -/
theorem repeat_press_overwrites_witness :
    (press_core sampleHeld Key.ctrl 2).key_states =
      upsertKey sampleHeld.key_states Key.ctrl 2 ∧
    (press_core sampleHeld Key.ctrl 2).key_states.filter
      (fun p => decide (p.1 = Key.ctrl)) = [(Key.ctrl, 2)] ∧
    (Key.ctrl, 2) ∈ (press_core sampleHeld Key.ctrl 2).key_states ∧
    (press_core sampleHeld Key.ctrl 2).combinations_timeout =
      sampleHeld.combinations_timeout ∧
    (press_core sampleHeld Key.ctrl 2).stuck_keys_cleaned =
      sampleHeld.stuck_keys_cleaned ∧
    on_key_press sampleHeld Key.ctrl 2 =
      check_combinations (press_core sampleHeld Key.ctrl 2) :=
  repeat_press_overwrites sampleHeld Key.ctrl 1 2 (by decide) (by decide)
    (by
      intro p hp
      rw [show sampleHeld.key_states = [(Key.ctrl, 1)] from rfl,
        List.mem_singleton] at hp
      subst hp
      show ¬((2:ℚ) - 1 > 3)
      norm_num)
    (by
      intro v hv
      rw [show sampleHeld.combination_start_time = some 1 from rfl,
        Option.some_inj] at hv
      subst hv
      show ¬((2:ℚ) - 1 > 1)
      norm_num)

/-- Claim C9 counterexample: a single non-modifier key is accepted by
`add_combination`, so the table can hold a required-key set of size 1,
contradicting the claimed size-2 lower bound. -/
theorem single_key_combo_accepted_counterexample :
    (add_combination (initState 1 3 0) "x" [Key.other 0]).2 = true ∧
    (add_combination (initState 1 3 0) "x" [Key.other 0]).1.combinations =
      [("x", {Key.other 0})] ∧
    ({Key.other 0} : Finset Key).card = 1 := by
  refine ⟨?_, ?_, rfl⟩ <;> decide

/-- Claim C9 (amended): every installed combination has a non-empty key set
and is not a single bare modifier; single-key sets built from a non-modifier
key can be installed, so no size-2 lower bound holds. -/
theorem table_combos_valid (s : TrackerState) (name : String) (keys : List Key)
    (h : ∀ q ∈ s.combinations, validCombo q.2) :
    ∀ q ∈ (add_combination s name keys).1.combinations, validCombo q.2 := by
  intro q hq
  by_cases h0 : keys.toFinset = ∅
  · rw [add_combination_of_empty h0] at hq
    exact h q hq
  · by_cases h1 : keys.toFinset.card = 1 ∧ keys.toFinset ⊆ modifierKeys
    · rw [add_combination_of_single_mod h0 h1] at hq
      exact h q hq
    · rw [add_combination_of_ok h0 h1] at hq
      dsimp only at hq
      rcases mem_upsertCombo hq with hmem | heq
      · exact h q hmem
      · rw [heq]
        show validCombo keys.toFinset
        refine ⟨h0, ?_⟩
        intro m hm hqm
        apply h1
        constructor
        · rw [hqm]
          simp
        · rw [hqm, Finset.singleton_subset_iff]
          exact hm

/-- Claim C9 witness for the amended statement: after registering
`x = {ctrl, space}` on an empty table, the installed set is valid. -/
theorem table_combos_valid_witness :
    validCombo ({Key.ctrl, Key.space} : Finset Key) :=
  table_combos_valid (initState 1 3 0) "x" [Key.ctrl, Key.space]
    (fun q hq => absurd hq (List.not_mem_nil q))
    ("x", {Key.ctrl, Key.space}) (by decide)

theorem upsertKey_keys_nodup {l : List (Key × ℚ)} {k : Key} {t : ℚ}
    (h : (l.map Prod.fst).Nodup) : ((upsertKey l k t).map Prod.fst).Nodup := by
  unfold upsertKey
  by_cases hany : l.any (fun p => decide (p.1 = k)) = true
  · rw [if_pos hany]
    have hmap : (l.map (fun p => if p.1 = k then (k, t) else p)).map Prod.fst =
        l.map Prod.fst := by
      rw [List.map_map]
      apply List.map_congr_left
      intro p _
      by_cases hp : p.1 = k
      · simp [hp]
      · simp [hp]
    rw [hmap]
    exact h
  · rw [if_neg hany]
    rw [List.map_append, List.nodup_append]
    refine ⟨h, List.nodup_singleton k, ?_⟩
    intro a ha hb
    simp only [List.map_cons, List.map_nil, List.mem_singleton] at hb
    subst hb
    rw [List.mem_map] at ha
    obtain ⟨p, hp, hpk⟩ := ha
    exact hany (by
      rw [List.any_eq_true]
      exact ⟨p, hp, by simp [hpk]⟩)

theorem keys_nodup_cleanup {s : TrackerState} {now : ℚ}
    (h : (s.key_states.map Prod.fst).Nodup) :
    ((cleanup_stuck_keys s now).key_states.map Prod.fst).Nodup := by
  by_cases hf : s.key_states.filter (isStuck s.max_key_hold_time now) = []
  · rw [cleanup_stuck_keys_of_none hf]
    exact h
  · rw [cleanup_stuck_keys_of_some hf]
    exact ((List.filter_sublist s.key_states).map Prod.fst).nodup h

/-- The Python dict `key_states` cannot hold two entries for one key; in the
association-list embedding this is an invariant of every operation. -/
theorem keys_nodup_invariant (s : TrackerState) (k kr : Key) (now : ℚ)
    (h : (s.key_states.map Prod.fst).Nodup) :
    (((on_key_press s k now).1.key_states.map Prod.fst).Nodup) ∧
    (((on_key_release s kr now).key_states.map Prod.fst).Nodup) ∧
    (((cleanup_stuck_keys s now).key_states.map Prod.fst).Nodup) ∧
    (((watchdog_tick s now).key_states.map Prod.fst).Nodup) ∧
    (((check_combinations s).1.key_states.map Prod.fst).Nodup) ∧
    (((force_reset s now).key_states.map Prod.fst).Nodup) := by
  have hcheck : ∀ s' : TrackerState, (s'.key_states.map Prod.fst).Nodup →
      ((check_combinations s').1.key_states.map Prod.fst).Nodup := by
    intro s' h'
    unfold check_combinations
    by_cases he : heldKeys s' = ∅
    · simpa [he] using h'
    · rcases hm : findMatch s'.combinations (heldKeys s') with _ | n
      · simpa [he, hm] using h'
      · simp [he, hm]
  refine ⟨?_, ?_, keys_nodup_cleanup h, ?_, hcheck s h, by simp [force_reset]⟩
  · unfold on_key_press
    apply hcheck
    simp only [press_core]
    set s2 := cleanup_stuck_keys
      { s with total_key_presses := s.total_key_presses + 1 } now with hs2
    have h2 : (s2.key_states.map Prod.fst).Nodup := keys_nodup_cleanup h
    by_cases hks : s2.key_states.isEmpty = true
    · rw [if_pos hks]
      exact upsertKey_keys_nodup h2
    · rw [if_neg hks]
      by_cases hto : timeoutFired s2.combination_start_time now s2.combination_timeout = true
      · rw [if_pos hto]
        exact upsertKey_keys_nodup (by simp)
      · rw [if_neg hto]
        exact upsertKey_keys_nodup h2
  · unfold on_key_release
    by_cases hany : s.key_states.any (fun p => decide (p.1 = kr)) = true
    · rw [if_pos hany]
      exact ((List.filter_sublist s.key_states).map Prod.fst).nodup h
    · rw [if_neg hany]
      exact h
  · unfold watchdog_tick
    by_cases hc : (decide (now - (cleanup_stuck_keys s now).last_activity > 5) &&
        !(cleanup_stuck_keys s now).key_states.isEmpty) = true
    · rw [if_pos hc]
      simp [force_reset]
    · rw [if_neg hc]
      exact keys_nodup_cleanup h

end KeyTracker
